import Mathlib

/-!
Verification of the usb2snes protocol client (`src/lib.rs`).

The development shallowly embeds the protocol-relevant parts of the client:
the `Request` serialization shape produced by the serde derive, the hex
rendering used for numeric operands, the chunked upload of `put_file`, the
accumulating download loop of `read_mem`, the `recv` control-frame loop, the
file-listing decode, the path normalization of `list_files`, and the
attachment state machine of `Connection`.
-/

/-- File type decoded by `list_files` (enum `FileType` in the source). -/
inductive FileType
  | File
  | Dir
deriving DecidableEq, Repr

/-- Entry decoded by `list_files` (struct `FileInfo` in the source). -/
structure FileInfo where
  ty : FileType
  name : String
deriving DecidableEq, Repr

/-- Opcodes of the control protocol (enum `Opcode` in the source); the serde
derive serializes each variant to its exact identifier string. -/
inductive Opcode
  | Attach
  | DeviceList
  | GetAddress
  | Info
  | List
  | PutFile
  | Remove
deriving DecidableEq, Repr

/-- Address space of a request (enum `Space` in the source); the single
variant `Snes` is renamed to the wire string "SNES". -/
inductive Space
  | Snes
deriving DecidableEq, Repr

/-- A control request (struct `Request` in the source).  The serde field
attributes rename `opcode` to `Opcode`, `space` to `Space`, `flags` to
`Flags` and `ops` to `Operands`, and skip `flags`/`ops` when `None`. -/
structure Request where
  opcode : Opcode
  space : Space
  flags : Option (List String)
  ops : Option (List String)
deriving DecidableEq, Repr

/-- Wire string of an `Opcode`: the serde derive emits the variant name. -/
def opcodeStr : Opcode → String
  | .Attach => "Attach"
  | .DeviceList => "DeviceList"
  | .GetAddress => "GetAddress"
  | .Info => "Info"
  | .List => "List"
  | .PutFile => "PutFile"
  | .Remove => "Remove"

/-- Wire string of a `Space`: the serde rename attribute fixes "SNES". -/
def spaceStr : Space → String
  | .Snes => "SNES"

/-- The JSON values a serialized `Request` can contain: strings, arrays of
strings, and the top-level object with ordered fields. -/
inductive Json
  | str (s : String)
  | arr (elems : List String)
  | obj (fields : List (String × Json))

/-- Serialization of a `Request` as performed by the serde derive on the
struct: fields are emitted in declaration order `Opcode, Space, Flags,
Operands`, and `Flags`/`Operands` are omitted entirely when the option is
`None` (attribute `skip_serializing_if = Option::is_none`). -/
def requestJson (r : Request) : Json :=
  .obj ([("Opcode", .str (opcodeStr r.opcode)), ("Space", .str (spaceStr r.space))]
    ++ (match r.flags with
        | none => []
        | some fs => [("Flags", Json.arr fs)])
    ++ (match r.ops with
        | none => []
        | some os => [("Operands", Json.arr os)]))

/-- The ordered key list of the serialized form of a request. -/
def requestKeys (r : Request) : List String :=
  match requestJson r with
  | .obj fields => fields.map Prod.fst
  | _ => []

/-- Uppercase hexadecimal digit for a value below 16, as produced by the Rust
`{:X}` formatting. -/
def hexDigitChar (n : Nat) : Char :=
  if n < 10 then Char.ofNat (48 + n) else Char.ofNat (65 + (n - 10))

/-- Digit expansion of `{:X}` formatting: most significant digit first, no
leading zeros (a single `0` digit only for the value 0 handled in
`toHexUpper`). -/
def toHexCore (n : Nat) : List Char :=
  if _h : n < 16 then [hexDigitChar n]
  else toHexCore (n / 16) ++ [hexDigitChar (n % 16)]
termination_by n
decreasing_by
  exact Nat.div_lt_self (by omega) (by omega)

/-- The Rust `format!("{:X}", n)` for an unsigned integer: uppercase hex, no
prefix, no padding; the value 0 renders as "0". -/
def toHexUpper (n : Nat) : String :=
  ⟨toHexCore n⟩

/-- Numeric value of an uppercase hex digit (inverse of `hexDigitChar`). -/
def hexDigitVal (c : Char) : Nat :=
  if c.toNat < 65 then c.toNat - 48 else 10 + (c.toNat - 65)

/-- Value denoted by a big-endian sequence of hex digits. -/
def fromHexDigits (l : List Char) : Nat :=
  l.foldl (fun acc c => 16 * acc + hexDigitVal c) 0

/-- A character is an uppercase hexadecimal digit. -/
def isUpperHexDigit (c : Char) : Prop :=
  c.isDigit ∨ ('A' ≤ c ∧ c ≤ 'F')

instance (c : Char) : Decidable (isUpperHexDigit c) := by
  unfold isUpperHexDigit; infer_instance

/-- The Rust `slice::chunks(n + 1)`: splits a list into consecutive chunks of
`n + 1` elements, the last chunk possibly shorter; the empty list yields no
chunks.  The size is passed as `n + 1` so the function is well defined for
every argument, exactly as `chunks` requires a nonzero size. -/
def chunksSucc (n : Nat) : List α → List (List α)
  | [] => []
  | x :: xs => (x :: List.take n xs) :: chunksSucc n (List.drop n xs)
termination_by l => l.length
decreasing_by
  simp only [List.length_drop, List.length_cons]
  omega

/-- An inbound WebSocket frame as seen by the client.  `text` and `binary`
carry their payloads; `other` stands for the remaining frame kinds
(ping, pong, close) for which both `is_text()` and `is_binary()` are false. -/
inductive Frame
  | text (s : String)
  | binary (b : List Nat)
  | other
deriving DecidableEq, Repr

/-- An outbound frame written by the client: either a serialized control
`Request` (a text frame carrying its JSON) or a raw binary payload. -/
inductive OutFrame
  | control (r : Request)
  | data (b : List Nat)
deriving DecidableEq, Repr

/-- Errors surfaced by the client (`failure::Error` values in the source):
transport failures, the "no message" protocol error raised by `recv` on
stream exhaustion, serde decode failures, and the "Not attached to device"
check of `get_info`. -/
inductive ClientError
  | transportErr
  | protocolErr (msg : String)
  | decodeErr (s : String)
  | notAttached
deriving DecidableEq, Repr

/-- The `recv` loop (lines 87-97): pull frames until one with `is_text() ||
is_binary()`; attempt to decode that frame as `Results` and return its
`results` on success or propagate the serde error on failure; answer
"no message" when the stream ends first.  `dec` stands for
`serde_json::from_str` restricted to the `Results` shape and `rb` for
`Message::to_string` on a binary payload; both are external collaborators.
Returns the result together with the frames left unread. -/
def recvRun (dec : String → Option (List String)) (rb : List Nat → String) :
    List Frame → Except ClientError (List String) × List Frame
  | [] => (.error (.protocolErr "no message"), [])
  | .text s :: rest =>
    ((match dec s with
      | some r => .ok r
      | none => .error (.decodeErr s)), rest)
  | .binary b :: rest =>
    ((match dec (rb b) with
      | some r => .ok r
      | none => .error (.decodeErr (rb b))), rest)
  | .other :: rest => recvRun dec rb rest

/-- The inner loop of `read_mem` (lines 205-214): pull frames until a binary
one arrives, ignoring the others; yield its payload and the rest of the
stream, or `none` when the stream ends first. -/
def nextBinary : List Frame → Option (List Nat × List Frame)
  | [] => none
  | .binary b :: rest => some (b, rest)
  | _ :: rest => nextBinary rest

/-- Outcome of the `read_mem` frame loop.  `ok` is the `Ok(())` return with
the accumulated buffer and the frames left unread; `panicked` is the
out-of-bounds slice write `data[offset..offset + read_size]` when a frame
overshoots the buffer; `hangs` marks the state in which the outer
`while offset < len` loop re-polls an exhausted stream: `ws.next()` keeps
yielding `None`, the state never changes, and the loop never exits. -/
inductive ReadMemResult
  | ok (buf : List Nat) (rest : List Frame)
  | panicked
  | hangs
deriving DecidableEq, Repr

theorem nextBinary_length {s rest : List Frame} {b : List Nat}
    (h : nextBinary s = some (b, rest)) : rest.length < s.length := by
  induction s with
  | nil => simp [nextBinary] at h
  | cons f t ih =>
    cases f with
    | binary b2 =>
      simp only [nextBinary] at h
      cases h
      simp
    | text s2 =>
      simp only [nextBinary] at h
      have := ih h
      simp only [List.length_cons]
      omega
    | other =>
      simp only [nextBinary] at h
      have := ih h
      simp only [List.length_cons]
      omega

/-- The outer loop of `read_mem` (lines 204-215) over a stream of frames:
while fewer than `len` bytes are accumulated, wait for the next binary frame
and append its payload at the current offset.  A payload overshooting the
remaining space panics (slice bound `offset + read_size > len`); an
exhausted stream leaves the loop spinning forever (`hangs`), since the code
has no exit path for that case. -/
def readMemRun (len : Nat) (acc : List Nat) (s : List Frame) : ReadMemResult :=
  if acc.length < len then
    match h : nextBinary s with
    | some (b, rest) =>
      if len < acc.length + b.length then .panicked
      else readMemRun len (acc ++ b) rest
    | none => .hangs
  else .ok acc s
termination_by s.length
decreasing_by
  exact nextBinary_length h

/-- One iteration of the outer `while offset < len` loop of `read_mem`:
run the inner frame loop once and append the payload it found, if any.
When the stream is exhausted the iteration returns with the state
unchanged, which is what makes the outer loop spin forever. -/
def readMemIter (st : List Nat × List Frame) : List Nat × List Frame :=
  match nextBinary st.2 with
  | some (b, rest) => (st.1 ++ b, rest)
  | none => st

/-- Payloads of the binary frames of a stream, in arrival order. -/
def binaryPayloads (s : List Frame) : List (List Nat) :=
  s.filterMap fun f =>
    match f with
    | .binary b => some b
    | _ => none

/-- The Rust `path.trim_end_matches('/')` on the character list of a path:
remove every trailing `/`. -/
def trimEndSlashes (l : List Char) : List Char :=
  (l.reverse.dropWhile (fun c => c = '/')).reverse

/-- The Rust `path.trim_end_matches('/')` (line 139). -/
def trimEndSlashesStr (s : String) : String :=
  ⟨trimEndSlashes s.data⟩

/-- The client connection (struct `Connection`): the attachment flag plus
the two directions of the owned WebSocket, modelled as the list of frames
successfully written so far and the list of frames still to be read. -/
structure Connection where
  attached : Bool
  sentFrames : List OutFrame
  inbound : List Frame
deriving DecidableEq, Repr

/-- The request built by `Connection::attach` (lines 111-116). -/
def attachRequest (device : String) : Request :=
  { opcode := .Attach, space := .Snes, flags := none, ops := some [device] }

/-- The request built by `Connection::get_info` (lines 127-132). -/
def infoRequest : Request :=
  { opcode := .Info, space := .Snes, flags := none, ops := none }

/-- The request built by `Connection::list_files` (lines 141-146): the path
operand is the argument with trailing separators stripped (line 139). -/
def listFilesRequest (path : String) : Request :=
  { opcode := .List, space := .Snes, flags := none,
    ops := some [trimEndSlashesStr path] }

/-- The request built by `Connection::put_file` (lines 164-169): operands are
the remote path and the data length rendered by `format!("{:X}", len)`. -/
def putFileRequest (path : String) (d : List Nat) : Request :=
  { opcode := .PutFile, space := .Snes, flags := none,
    ops := some [path, toHexUpper d.length] }

/-- Everything `Connection::put_file` writes to the transport (lines
163-179): the control request, then the data split by `data.chunks(1024)`
into binary frames sent in order (each flushed before the next). -/
def putFileFrames (path : String) (d : List Nat) : List OutFrame :=
  OutFrame.control (putFileRequest path d) :: (chunksSucc 1023 d).map OutFrame.data

/-- `Connection::attach` (lines 110-120): send the attach request, then set
`attached = true`; the flag is only reached after `self.send(&req).await?`
succeeds, so a failed send (modelled by `sendOk = false`, which also covers
the serde serialization error path of `send`) returns the error with the
connection unchanged. -/
def Connection.attach (sendOk : Bool) (device : String) (c : Connection) :
    Connection × Option ClientError :=
  if sendOk then
    ({ c with sentFrames := c.sentFrames ++ [.control (attachRequest device)],
              attached := true }, none)
  else (c, some .transportErr)

/-- `Connection::get_info` (lines 122-135): fail with the "Not attached to
device" error before any I/O when the flag is unset; otherwise send the
`Info` request and run `recv` on the inbound stream.  `dec` and `rb` are the
external serde decoder and binary-to-text rendering used by `recv`; `sendOk`
models whether the transport accepts the outbound frame. -/
def Connection.get_info (dec : String → Option (List String))
    (rb : List Nat → String) (sendOk : Bool) (c : Connection) :
    Connection × Except ClientError (List String) :=
  if c.attached = false then (c, .error .notAttached)
  else if sendOk = false then (c, .error .transportErr)
  else
    let c2 : Connection :=
      { c with sentFrames := c.sentFrames ++ [.control infoRequest] }
    let out := recvRun dec rb c2.inbound
    ({ c2 with inbound := out.2 }, out.1)

/-- Decode step of `Connection::list_files` (lines 148-158): iterate over
`results.chunks(2)`; each chunk yields a `FileInfo` whose type is `Dir`
exactly when `strs[0] == "0"` and whose name is `strs[1]`.  A final chunk of
a single element panics at the out-of-bounds index `strs[1]`; the panic is
modelled as `none`. -/
def decodeFileInfos : List String → Option (List FileInfo)
  | [] => some []
  | [_] => none
  | a :: b :: rest =>
    (decodeFileInfos rest).map fun fs =>
      { ty := if a = "0" then FileType.Dir else FileType.File, name := b } :: fs

theorem chunksSucc_flatten (n : Nat) (l : List α) :
    (chunksSucc n l).flatten = l := by
  induction l using chunksSucc.induct n with
  | case1 => simp [chunksSucc]
  | case2 x xs ih =>
    rw [chunksSucc]
    simp only [List.flatten_cons, ih]
    simp [List.cons_append, List.take_append_drop]

theorem chunksSucc_length (n : Nat) (l : List α) :
    (chunksSucc n l).length = (l.length + n) / (n + 1) := by
  induction l using chunksSucc.induct n with
  | case1 =>
    rw [chunksSucc]
    simp only [List.length_nil, Nat.zero_add]
    exact (Nat.div_eq_of_lt (by omega)).symm
  | case2 x xs ih =>
    rw [chunksSucc]
    simp only [List.length_cons, ih, List.length_drop]
    by_cases hle : n ≤ xs.length
    · have h1 : xs.length - n + n = xs.length := by omega
      have h2 : xs.length + 1 + n = xs.length + (n + 1) := by omega
      rw [h1, h2, Nat.add_div_right _ (by omega)]
    · have h1 : xs.length - n = 0 := by omega
      have h2 : n / (n + 1) = 0 := Nat.div_eq_of_lt (by omega)
      rw [h1]
      simp only [Nat.zero_add, h2]
      have hlo : 1 * (n + 1) ≤ xs.length + 1 + n := by omega
      have hhi : xs.length + 1 + n < (1 + 1) * (n + 1) := by omega
      rw [Nat.div_eq_of_lt_le hlo hhi]

theorem chunksSucc_size_le (n : Nat) (l : List α) :
    ∀ c ∈ chunksSucc n l, c.length ≤ n + 1 := by
  induction l using chunksSucc.induct n with
  | case1 => simp [chunksSucc]
  | case2 x xs ih =>
    rw [chunksSucc]
    intro c hc
    rcases List.mem_cons.mp hc with h | h
    · subst h
      simp only [List.length_cons, List.length_take]
      omega
    · exact ih c h

theorem hexDigitVal_hexDigitChar {m : Nat} (h : m < 16) :
    hexDigitVal (hexDigitChar m) = m := by
  interval_cases m <;> rfl

theorem hexDigitChar_upperHex {m : Nat} (h : m < 16) :
    isUpperHexDigit (hexDigitChar m) := by
  interval_cases m <;> decide

theorem hexDigitChar_zero {m : Nat} (h : m < 16) :
    hexDigitChar m = '0' ↔ m = 0 := by
  interval_cases m <;> simp <;> decide

theorem fromHexDigits_concat (l : List Char) (c : Char) :
    fromHexDigits (l ++ [c]) = 16 * fromHexDigits l + hexDigitVal c := by
  simp [fromHexDigits, List.foldl_append]

theorem fromHexDigits_toHexCore (n : Nat) :
    fromHexDigits (toHexCore n) = n := by
  induction n using toHexCore.induct with
  | case1 n h =>
    rw [toHexCore]
    simp only [h, dite_true]
    simp [fromHexDigits, hexDigitVal_hexDigitChar h]
  | case2 n h ih =>
    rw [toHexCore]
    simp only [h, dite_false]
    rw [fromHexDigits_concat, ih, hexDigitVal_hexDigitChar (Nat.mod_lt _ (by omega))]
    omega

theorem toHexCore_ne_nil (n : Nat) : toHexCore n ≠ [] := by
  induction n using toHexCore.induct with
  | case1 n h =>
    rw [toHexCore]
    simp [h]
  | case2 n h _ =>
    rw [toHexCore]
    simp [h]

theorem toHexCore_head_ne_zero {n : Nat} (hn : n ≠ 0) :
    (toHexCore n).head? ≠ some '0' := by
  induction n using toHexCore.induct with
  | case1 n h =>
    rw [toHexCore]
    simp only [h, dite_true, List.head?_cons]
    intro hc
    exact hn ((hexDigitChar_zero h).mp (Option.some_injective _ hc))
  | case2 n h ih =>
    rw [toHexCore]
    simp only [h, dite_false]
    rcases hl : toHexCore (n / 16) with _ | ⟨c, t⟩
    · exact absurd hl (toHexCore_ne_nil _)
    · have hne : n / 16 ≠ 0 := by omega
      have h0 := ih hne
      rw [hl] at h0
      simp only [List.cons_append, List.head?_cons] at h0 ⊢
      exact h0

theorem toHexCore_upperHex (n : Nat) :
    ∀ c ∈ toHexCore n, isUpperHexDigit c := by
  induction n using toHexCore.induct with
  | case1 n h =>
    rw [toHexCore]
    simp only [h, dite_true]
    intro c hc
    rw [List.mem_singleton] at hc
    subst hc
    exact hexDigitChar_upperHex h
  | case2 n h ih =>
    rw [toHexCore]
    simp only [h, dite_false]
    intro c hc
    rcases List.mem_append.mp hc with hm | hm
    · exact ih c hm
    · rw [List.mem_singleton] at hm
      subst hm
      exact hexDigitChar_upperHex (Nat.mod_lt _ (by omega))

theorem readMemRun_eq (len : Nat) (acc : List Nat) (s : List Frame) :
    readMemRun len acc s =
      if acc.length < len then
        match _h : nextBinary s with
        | some (b, rest) =>
          if len < acc.length + b.length then .panicked
          else readMemRun len (acc ++ b) rest
        | none => .hangs
      else .ok acc s := by
  rw [readMemRun]

@[simp] theorem binaryPayloads_nil : binaryPayloads [] = [] := rfl

@[simp] theorem binaryPayloads_cons_binary (b : List Nat) (t : List Frame) :
    binaryPayloads (Frame.binary b :: t) = b :: binaryPayloads t := rfl

@[simp] theorem binaryPayloads_cons_text (s : String) (t : List Frame) :
    binaryPayloads (Frame.text s :: t) = binaryPayloads t := rfl

@[simp] theorem binaryPayloads_cons_other (t : List Frame) :
    binaryPayloads (Frame.other :: t) = binaryPayloads t := rfl

theorem readMemRun_cons_skip (len : Nat) (acc : List Nat) (f : Frame)
    (t : List Frame) (hf : nextBinary (f :: t) = nextBinary t)
    (hlt : acc.length < len) :
    readMemRun len acc (f :: t) = readMemRun len acc t := by
  rw [readMemRun_eq, readMemRun_eq, hf]
  simp only [hlt, if_true]

theorem readMemRun_spec (len : Nat) (acc : List Nat) (s : List Frame)
    (h : acc.length + (binaryPayloads s).flatten.length = len) :
    ∃ rest, readMemRun len acc s = .ok (acc ++ (binaryPayloads s).flatten) rest := by
  induction s generalizing acc with
  | nil =>
    refine ⟨[], ?_⟩
    rw [readMemRun_eq]
    simp only [binaryPayloads_nil, List.flatten_nil, List.length_nil] at h
    simp [show ¬ acc.length < len by omega]
  | cons f t ih =>
    cases f with
    | binary b =>
      by_cases hlt : acc.length < len
      · have hnp : ¬ len < acc.length + b.length := by
          simp only [binaryPayloads_cons_binary, List.flatten_cons,
            List.length_append] at h
          omega
        have hrec : (acc ++ b).length + (binaryPayloads t).flatten.length = len := by
          simp only [binaryPayloads_cons_binary, List.flatten_cons,
            List.length_append] at h ⊢
          omega
        obtain ⟨rest, hr⟩ := ih (acc ++ b) hrec
        refine ⟨rest, ?_⟩
        rw [readMemRun_eq]
        simp only [hlt, if_true, nextBinary, hnp, if_false, hr]
        simp [List.append_assoc]
      · have hz : (binaryPayloads (Frame.binary b :: t)).flatten.length = 0 := by
          omega
        refine ⟨Frame.binary b :: t, ?_⟩
        rw [readMemRun_eq]
        simp only [hlt, if_false]
        rw [List.length_eq_zero.mp hz]
        simp
    | text s2 =>
      by_cases hlt : acc.length < len
      · obtain ⟨rest, hr⟩ := ih acc (by simpa using h)
        exact ⟨rest,
          by rw [readMemRun_cons_skip len acc (Frame.text s2) t rfl hlt, hr]; simp⟩
      · have hz : (binaryPayloads (Frame.text s2 :: t)).flatten.length = 0 := by
          omega
        refine ⟨Frame.text s2 :: t, ?_⟩
        rw [readMemRun_eq]
        simp only [hlt, if_false]
        rw [List.length_eq_zero.mp hz]
        simp
    | other =>
      by_cases hlt : acc.length < len
      · obtain ⟨rest, hr⟩ := ih acc (by simpa using h)
        exact ⟨rest,
          by rw [readMemRun_cons_skip len acc Frame.other t rfl hlt, hr]; simp⟩
      · have hz : (binaryPayloads (Frame.other :: t)).flatten.length = 0 := by
          omega
        refine ⟨Frame.other :: t, ?_⟩
        rw [readMemRun_eq]
        simp only [hlt, if_false]
        rw [List.length_eq_zero.mp hz]
        simp

theorem recvRun_ne_notAttached (dec : String → Option (List String))
    (rb : List Nat → String) (l : List Frame) :
    (recvRun dec rb l).1 ≠ Except.error ClientError.notAttached := by
  induction l with
  | nil => simp [recvRun]
  | cons f t ih =>
    cases f with
    | text s =>
      simp only [recvRun]
      cases dec s <;> simp
    | binary b =>
      simp only [recvRun]
      cases dec (rb b) <;> simp
    | other => simpa [recvRun] using ih

theorem dropWhile_head_false (q : α → Bool) (l : List α) (c : α)
    (h : (List.dropWhile q l).head? = some c) : q c = false := by
  induction l with
  | nil => simp [List.dropWhile] at h
  | cons x t ih =>
    rw [List.dropWhile_cons] at h
    by_cases hx : q x
    · rw [if_pos hx] at h
      exact ih h
    · rw [if_neg hx] at h
      simp only [List.head?_cons, Option.some_inj] at h
      subst h
      simpa using hx

theorem dropWhile_idem (q : α → Bool) (l : List α) :
    List.dropWhile q (List.dropWhile q l) = List.dropWhile q l := by
  rcases hd : List.dropWhile q l with _ | ⟨c, t⟩
  · simp [List.dropWhile]
  · have hc : q c = false := dropWhile_head_false q l c (by rw [hd]; rfl)
    rw [List.dropWhile_cons, if_neg (by simp [hc])]

theorem trimEndSlashes_no_trailing (l : List Char) :
    (trimEndSlashes l).getLast? ≠ some '/' := by
  unfold trimEndSlashes
  rw [List.getLast?_reverse]
  intro h
  have := dropWhile_head_false _ _ _ h
  simp at this

theorem trimEndSlashes_idem (l : List Char) :
    trimEndSlashes (trimEndSlashes l) = trimEndSlashes l := by
  unfold trimEndSlashes
  rw [List.reverse_reverse, dropWhile_idem]

/-- Claim C1: serializing a `Request` yields a JSON object whose `Flags` key
is present exactly when `flags` is set and whose `Operands` key is present
exactly when `ops` is set (never as null or empty), whose keys follow the
fixed order `Opcode, Space, Flags, Operands`, and which has exactly the keys
`Opcode` and `Space` when both options are unset. -/
theorem request_serialization_keys (r : Request) :
    requestKeys r
        = ["Opcode", "Space"]
            ++ (if r.flags.isSome then ["Flags"] else [])
            ++ (if r.ops.isSome then ["Operands"] else [])
      ∧ List.Sublist (requestKeys r) ["Opcode", "Space", "Flags", "Operands"]
      ∧ ("Flags" ∈ requestKeys r ↔ r.flags.isSome)
      ∧ ("Operands" ∈ requestKeys r ↔ r.ops.isSome)
      ∧ (r.flags = none → r.ops = none → requestKeys r = ["Opcode", "Space"]) := by
  obtain ⟨o, sp, fl, op⟩ := r
  cases fl <;> cases op <;>
    simp [requestKeys, requestJson]

/-- Witness for C1: a request with no flags and no operands (the
`DeviceList` request of `get_device_list`) serializes to an object with
exactly the keys `Opcode` and `Space`. -/
theorem request_serialization_keys_witness :
    requestKeys
        { opcode := Opcode.DeviceList, space := Space.Snes,
          flags := none, ops := none }
      = ["Opcode", "Space"] :=
  (request_serialization_keys
    { opcode := Opcode.DeviceList, space := Space.Snes,
      flags := none, ops := none }).2.2.2.2 rfl rfl

/-- Claim C10: `attach` sets the attachment flag only after the send
succeeds; a failed send returns the error with the connection (flag and
outbound frames) unchanged, and a successful send appends exactly the
`Attach` request and sets the flag. -/
theorem attach_sets_flag_only_on_success (c : Connection) (dev : String) :
    Connection.attach false dev c = (c, some ClientError.transportErr)
      ∧ (Connection.attach true dev c).1.attached = true
      ∧ (Connection.attach true dev c).2 = none
      ∧ (Connection.attach true dev c).1.sentFrames
          = c.sentFrames ++ [OutFrame.control (attachRequest dev)] := by
  unfold Connection.attach
  simp

/-- Claim C9: the decode step of `list_files` is not total: an odd-length
results sequence leaves a final one-element chunk, and indexing it at
position 1 is out of bounds, so the decode panics (modelled as `none`)
instead of producing a value or an error. -/
theorem list_files_odd_length_panics :
    decodeFileInfos ["0"] = none
      ∧ decodeFileInfos ["0", "roms", "1"] = none := by
  exact ⟨rfl, rfl⟩

/-- Claim C4 (code bug): when the transport stream ends before `len` bytes
have been accumulated, `read_mem` does not return a `ProtocolError`; the
outer `while offset < len` loop re-polls the exhausted stream forever.  The
first conjunct evaluates the loop at the failing input (requested length 2,
a single binary frame of one byte, then end of stream); the second shows an
outer-loop iteration on an exhausted stream leaves the state unchanged, so
no iteration can ever make progress. -/
theorem read_mem_hangs_on_early_close :
    readMemRun 2 [] [Frame.binary [7]] = ReadMemResult.hangs
      ∧ readMemIter ([7], []) = ([7], []) := by
  constructor
  · rw [readMemRun_eq]
    simp only [List.length_nil, nextBinary]
    norm_num
    rw [readMemRun_eq]
    simp [nextBinary]
  · rfl

/-- Claim C7: the path operand transmitted by `list_files` is the argument
with every trailing separator removed; the normalized form has no trailing
separator and the normalization is idempotent. -/
theorem list_files_normalizes_path (p : String) :
    (listFilesRequest p).ops = some [trimEndSlashesStr p]
      ∧ (trimEndSlashesStr p).data.getLast? ≠ some '/'
      ∧ trimEndSlashesStr (trimEndSlashesStr p) = trimEndSlashesStr p := by
  refine ⟨rfl, ?_, ?_⟩
  · exact trimEndSlashes_no_trailing p.data
  · unfold trimEndSlashesStr
    exact congrArg String.mk (trimEndSlashes_idem p.data)

/-- Witness for C7: the path "roms//" is normalized to "roms" before
transmission, and renormalizing changes nothing. -/
theorem list_files_normalizes_path_witness :
    ((listFilesRequest "roms//").ops = some [trimEndSlashesStr "roms//"]
        ∧ (trimEndSlashesStr "roms//").data.getLast? ≠ some '/'
        ∧ trimEndSlashesStr (trimEndSlashesStr "roms//") = trimEndSlashesStr "roms//")
      ∧ trimEndSlashesStr "roms//" = "roms" :=
  ⟨list_files_normalizes_path "roms//", by decide⟩

/-- Claim C2: for data of length N, `put_file` first sends one control
request whose operands are the remote path and the uppercase hexadecimal
rendering of N (no prefix, no leading zero, value-correct digits), then
exactly ceil(N/1024) binary frames of at most 1024 bytes each, in order,
whose concatenation equals the data. -/
theorem put_file_protocol (path : String) (d : List Nat) :
    putFileFrames path d
        = OutFrame.control (putFileRequest path d)
            :: (chunksSucc 1023 d).map OutFrame.data
      ∧ (putFileRequest path d).ops = some [path, toHexUpper d.length]
      ∧ (chunksSucc 1023 d).length = (d.length + 1023) / 1024
      ∧ (∀ c ∈ chunksSucc 1023 d, c.length ≤ 1024)
      ∧ (chunksSucc 1023 d).flatten = d
      ∧ fromHexDigits (toHexUpper d.length).data = d.length
      ∧ (d.length ≠ 0 → (toHexUpper d.length).data.head? ≠ some '0')
      ∧ (∀ c ∈ (toHexUpper d.length).data, isUpperHexDigit c) := by
  refine ⟨rfl, rfl, ?_, ?_, ?_, ?_, ?_, ?_⟩
  · exact chunksSucc_length 1023 d
  · exact chunksSucc_size_le 1023 d
  · exact chunksSucc_flatten 1023 d
  · exact fromHexDigits_toHexCore d.length
  · exact fun hn => toHexCore_head_ne_zero hn
  · exact toHexCore_upperHex d.length

/-- Witness for C2: uploading the three bytes 1, 2, 3 to path "f" sends the
control request with the length operand and one binary chunk concatenating
back to the data; the spec example N = 4096 renders as "1000". -/
theorem put_file_protocol_witness :
    (chunksSucc 1023 ([1, 2, 3] : List Nat)).length = (3 + 1023) / 1024
      ∧ (chunksSucc 1023 ([1, 2, 3] : List Nat)).flatten = [1, 2, 3]
      ∧ (putFileRequest "f" [1, 2, 3]).ops = some ["f", toHexUpper 3]
      ∧ fromHexDigits (toHexUpper 3).data = 3
      ∧ (toHexUpper 3).data.head? ≠ some '0' :=
  ⟨(put_file_protocol "f" [1, 2, 3]).2.2.1,
   (put_file_protocol "f" [1, 2, 3]).2.2.2.2.1,
   (put_file_protocol "f" [1, 2, 3]).2.1,
   (put_file_protocol "f" [1, 2, 3]).2.2.2.2.2.1,
   (put_file_protocol "f" [1, 2, 3]).2.2.2.2.2.2.1 (by decide)⟩

/-- Claim C3: for a requested length L, however the incoming stream
fragments the payload into binary frames whose payload lengths sum to L,
`read_mem` accumulates exactly the concatenation of the binary payloads in
arrival order, ignoring interleaved non-binary frames, and returns as soon
as L bytes are reached. -/
theorem read_mem_accumulates (L : Nat) (s : List Frame)
    (h : (binaryPayloads s).flatten.length = L) :
    ∃ rest, readMemRun L [] s = .ok (binaryPayloads s).flatten rest := by
  have := readMemRun_spec L [] s (by simpa using h)
  simpa using this

/-- Witness for C3: requesting 3 bytes over a stream that fragments them
unevenly (a two-byte frame and a one-byte frame) with a text frame
interleaved fills the buffer with the concatenated payloads. -/
theorem read_mem_accumulates_witness :
    ∃ rest,
      readMemRun 3 []
          [Frame.other, Frame.binary [1, 2], Frame.text "x", Frame.binary [3]]
        = .ok (binaryPayloads
            [Frame.other, Frame.binary [1, 2], Frame.text "x",
             Frame.binary [3]]).flatten rest :=
  read_mem_accumulates 3
    [Frame.other, Frame.binary [1, 2], Frame.text "x", Frame.binary [3]]
    (by decide)

/-- Part of claim C5: `recv` does not skip a text frame that fails to decode
as `Results`; with a decoder accepting exactly "good", a stream carrying the
undecodable text frame "junk" followed by the decodable frame "good" makes
`recv` fail with the decode error on "junk" rather than return the results
of "good" as the claim states. -/
theorem recv_skip_claim_counterexample :
    (recvRun (fun s => if s = "good" then some ["x"] else none) (fun _ => "")
        [Frame.text "junk", Frame.text "good"]).1
        = Except.error (ClientError.decodeErr "junk")
      ∧ (recvRun (fun s => if s = "good" then some ["x"] else none) (fun _ => "")
          [Frame.text "junk", Frame.text "good"]).1 ≠ Except.ok ["x"]
      ∧ (fun s => if s = "good" then some ["x"] else none) "good" = some ["x"] := by
  refine ⟨rfl, ?_, rfl⟩
  intro hcontra
  exact Except.noConfusion hcontra

/-- Claim C5 (amended): `recv` skips frames that are neither text nor binary
until the first text or binary frame arrives; it attempts to decode only
that frame, returning its results on success and the decode error on
failure, and it fails with ProtocolError "no message" when the transport is
exhausted before any text or binary frame arrives. -/
theorem recv_first_decodable_frame (dec : String → Option (List String))
    (rb : List Nat → String) (pre rest : List Frame) (s : String) (b : List Nat)
    (hpre : ∀ f ∈ pre, f = Frame.other) :
    (recvRun dec rb pre).1 = Except.error (ClientError.protocolErr "no message")
      ∧ (recvRun dec rb (pre ++ Frame.text s :: rest)).1
          = (match dec s with
             | some r => Except.ok r
             | none => Except.error (ClientError.decodeErr s))
      ∧ (recvRun dec rb (pre ++ Frame.binary b :: rest)).1
          = (match dec (rb b) with
             | some r => Except.ok r
             | none => Except.error (ClientError.decodeErr (rb b))) := by
  induction pre with
  | nil =>
    refine ⟨rfl, ?_, ?_⟩
    · simp only [List.nil_append, recvRun]
    · simp only [List.nil_append, recvRun]
  | cons f t ih =>
    have hf : f = Frame.other := hpre f (List.mem_cons_self f t)
    subst hf
    have ht : ∀ f ∈ t, f = Frame.other := fun f hf => hpre f (List.mem_cons_of_mem _ hf)
    simpa only [List.cons_append, recvRun] using ih ht

/-- Witness for C5: with one ping frame ahead of the decodable frame "good",
`recv` skips the ping and returns the decoded results. -/
theorem recv_first_decodable_frame_witness :
    (recvRun (fun s => if s = "good" then some ["x"] else none) (fun _ => "")
        ([Frame.other] ++ Frame.text "good" :: [])).1
      = (match (fun s => if s = "good" then some ["x"] else none) "good" with
         | some r => Except.ok r
         | none => Except.error (ClientError.decodeErr "good")) :=
  (recv_first_decodable_frame (fun s => if s = "good" then some ["x"] else none)
    (fun _ => "") [Frame.other] [] "good" [] (by decide)).2.1

/-- Claim C6: for every even-length results sequence, the `list_files`
decode produces exactly half as many entries, in order; entry i is a `Dir`
exactly when element 2i equals "0" (anything else gives `File`) and carries
element 2i+1 as its name. -/
theorem list_files_decode_pairs (rs : List String) (h : rs.length % 2 = 0) :
    ∃ l, decodeFileInfos rs = some l
      ∧ l.length = rs.length / 2
      ∧ ∀ i, i < l.length →
          (l.getD i { ty := FileType.File, name := "" }).ty
              = (if rs.getD (2 * i) "" = "0" then FileType.Dir else FileType.File)
            ∧ (l.getD i { ty := FileType.File, name := "" }).name
              = rs.getD (2 * i + 1) "" := by
  induction rs using decodeFileInfos.induct with
  | case1 =>
    exact ⟨[], rfl, rfl, by intro i hi; simp at hi⟩
  | case2 a =>
    simp at h
  | case3 a b rest ih =>
    have hrest : rest.length % 2 = 0 := by
      simp only [List.length_cons] at h
      omega
    obtain ⟨l, hdec, hlen, hidx⟩ := ih hrest
    refine ⟨{ ty := if a = "0" then FileType.Dir else FileType.File, name := b } :: l,
      ?_, ?_, ?_⟩
    · simp [decodeFileInfos, hdec]
    · simp only [List.length_cons, hlen]
      omega
    · intro i hi
      cases i with
      | zero =>
        simp
      | succ j =>
        have h2 : 2 * (j + 1) = 2 * j + 1 + 1 := by omega
        rw [h2]
        simp only [List.getD_cons_succ]
        have hj : j < l.length := by
          simp only [List.length_cons] at hi
          omega
        exact hidx j hj

/-- Witness for C6: the wire results ["0", "roms", "1", "x.smc"] decode to a
directory entry "roms" followed by a file entry "x.smc". -/
theorem list_files_decode_pairs_witness :
    (["0", "roms", "1", "x.smc"] : List String).length % 2 = 0
      ∧ ∃ l, decodeFileInfos ["0", "roms", "1", "x.smc"] = some l
          ∧ l.length = (["0", "roms", "1", "x.smc"] : List String).length / 2
          ∧ ∀ i, i < l.length →
              (l.getD i { ty := FileType.File, name := "" }).ty
                  = (if (["0", "roms", "1", "x.smc"] : List String).getD (2 * i) "" = "0"
                     then FileType.Dir else FileType.File)
                ∧ (l.getD i { ty := FileType.File, name := "" }).name
                  = (["0", "roms", "1", "x.smc"] : List String).getD (2 * i + 1) "" :=
  ⟨by decide, list_files_decode_pairs ["0", "roms", "1", "x.smc"] (by decide)⟩

/-- Claim C8: when not attached, `get_info` fails with the not-attached
error before any frame is sent, leaving the connection (including the
transport state) unchanged; when attached — in particular after a
successful `attach` — `get_info` never fails with the not-attached error,
though it may still fail at the transport level. -/
theorem get_info_state_machine (dec : String → Option (List String))
    (rb : List Nat → String) (sendOk : Bool) (c : Connection) :
    (c.attached = false →
        Connection.get_info dec rb sendOk c = (c, Except.error ClientError.notAttached))
      ∧ (c.attached = true →
          (Connection.get_info dec rb sendOk c).2 ≠ Except.error ClientError.notAttached)
      ∧ ∀ dev,
          (Connection.get_info dec rb sendOk (Connection.attach true dev c).1).2
            ≠ Except.error ClientError.notAttached := by
  have key : ∀ c2 : Connection, c2.attached = true →
      (Connection.get_info dec rb sendOk c2).2 ≠ Except.error ClientError.notAttached := by
    intro c2 h2
    unfold Connection.get_info
    rw [h2]
    cases sendOk with
    | false => simp
    | true =>
      simp only [Bool.true_eq_false, if_false, ite_false]
      exact recvRun_ne_notAttached dec rb _
  refine ⟨?_, key c, ?_⟩
  · intro h
    unfold Connection.get_info
    rw [h]
    simp
  · intro dev
    exact key _ (by unfold Connection.attach; simp)

/-- Witness for C8: on a freshly connected session (flag unset, empty
transport history) `get_info` fails with the not-attached error and sends
nothing; after a successful attach the same call does not fail with the
not-attached error. -/
theorem get_info_state_machine_witness :
    Connection.get_info (fun _ => none) (fun _ => "") true
        { attached := false, sentFrames := [], inbound := [] }
        = ({ attached := false, sentFrames := [], inbound := [] },
           Except.error ClientError.notAttached)
      ∧ (Connection.get_info (fun _ => none) (fun _ => "") true
            (Connection.attach true "SD2SNES COM3"
              { attached := false, sentFrames := [], inbound := [] }).1).2
          ≠ Except.error ClientError.notAttached :=
  ⟨(get_info_state_machine (fun _ => none) (fun _ => "") true
      { attached := false, sentFrames := [], inbound := [] }).1 rfl,
   (get_info_state_machine (fun _ => none) (fun _ => "") true
      { attached := false, sentFrames := [], inbound := [] }).2.2 "SD2SNES COM3"⟩
